import Mathlib

/-!
# Verification of the LintMon diagnostics aggregation and presentation core

Shallow embedding of the LintMon VS Code extension sources
(`src/providers/diagnosticsProvider.ts`, `src/providers/treeViewProvider.ts`,
`src/utils/tsChecker.ts` and the full-project-scan variant of the provider),
together with proofs and refutations of the specification claims about the
exclude-pattern matcher, the severity filter, the grouping engine, the refresh
coordinator state machine, and the TypeScript diagnostic conversion.
-/

namespace LintMon

/-! ## Exclude-pattern matching

The code excludes a file when

```
const regex = new RegExp(pattern.replace(/\*\*/g, '.*').replace(/\*/g, '[^/]*'));
return regex.test(relativePath);
```

(`diagnosticsProvider.ts` `getDiagnostics`, and identically in
`collectFromFullProjectScan` / `collectFromVSCodeDiagnostics` of the
full-scan provider).  We embed the two global string replacements exactly,
then give semantics to the resulting regular expression through a small atom
language that covers every string the pipeline can produce from a plain glob
pattern: literal characters, `.` (any character) and the starred classes
`[^/]*` and `.*`.  `RegExp.prototype.test` is unanchored substring search.
-/

/-- `pattern.replace(/\*\*/g, '.*')`: the JavaScript global replace scans left
to right, replacing each non-overlapping occurrence of `**` by `.*`. -/
def replaceStarStar : List Char → List Char
  | [] => []
  | c :: rest =>
    if c = '*' then
      match rest with
      | [] => ['*']
      | c2 :: rest2 =>
        if c2 = '*' then '.' :: '*' :: replaceStarStar rest2
        else '*' :: replaceStarStar (c2 :: rest2)
    else c :: replaceStarStar rest

/-- `s.replace(/\*/g, '[^/]*')`: every `*` (including the ones introduced by
the previous replacement) becomes `[^/]*`. -/
def replaceStar : List Char → List Char
  | [] => []
  | c :: rest =>
    if c = '*' then '[' :: '^' :: '/' :: ']' :: '*' :: replaceStar rest
    else c :: replaceStar rest

/-- Atoms of the regular-expression fragment produced by the glob
translation. -/
inductive RegexAtom : Type where
  | lit (c : Char)
  | dot
  | starNonSep
  | starAny
deriving DecidableEq, Repr

/-- Characters that a JavaScript `RegExp` treats specially (beyond `.` and
`*`, which the atom language models).  A glob pattern made of other
characters compiles to a regex inside the atom fragment. -/
def regexSpecial (c : Char) : Bool :=
  c = '\\' || c = '^' || c = '$' || c = '|' || c = '?' || c = '+' ||
  c = '(' || c = ')' || c = '[' || c = ']' || c = '{' || c = '}' || c = '*'

mutual

/-- Parse the regex source string produced by the replacement pipeline into
atoms: `[^/]*` is the starred segment class, `.` the any-character atom, any
plain character a literal.  These are the only constructs the pipeline can
emit from a plain glob (in particular a `.*` never survives the second
replacement, so the parser does not need it); strings using regex features
outside this fragment are rejected.  The `starAny` atom exists only for the
spec-side translation `specGlobAtoms`, which is built directly as atoms. -/
def parseRegex : List Char → Option (List RegexAtom)
  | [] => some []
  | c :: rest =>
    if c = '[' then parseBracket rest
    else if c = '.' then (parseRegex rest).map (fun r => RegexAtom.dot :: r)
    else if regexSpecial c then none
    else (parseRegex rest).map (fun r => RegexAtom.lit c :: r)
termination_by structural l => l

/-- Recognise the tail `^/]*` of the `[^/]*` class emitted by the pipeline
and continue parsing after it. -/
def parseBracket : List Char → Option (List RegexAtom)
  | '^' :: '/' :: ']' :: '*' :: rest2 =>
    (parseRegex rest2).map (fun r => RegexAtom.starNonSep :: r)
  | _ => none
termination_by structural l => l

end

/-- Backtracking for a starred atom: try the continuation `k` on every
suffix reachable by consuming characters accepted by `keep`. -/
def tryStar (keep : Char → Bool) (k : List Char → Bool) : List Char → Bool
  | [] => k []
  | x :: xs => k (x :: xs) || (keep x && tryStar keep k xs)

/-- `matchAtoms r s` holds when the atom sequence `r` matches some prefix of
`s` (the suffix of the path currently tried by the unanchored search). -/
def matchAtoms : List RegexAtom → List Char → Bool
  | [], _ => true
  | RegexAtom.lit _ :: _, [] => false
  | RegexAtom.lit c :: r, x :: xs => c = x && matchAtoms r xs
  | RegexAtom.dot :: _, [] => false
  | RegexAtom.dot :: r, _ :: xs => matchAtoms r xs
  | RegexAtom.starNonSep :: r, s => tryStar (fun x => !(x = '/')) (fun t => matchAtoms r t) s
  | RegexAtom.starAny :: r, s => tryStar (fun _ => true) (fun t => matchAtoms r t) s

/-- `RegExp.prototype.test`: the regex may match starting at any position of
the subject string. -/
def regexTest (r : List RegexAtom) (s : List Char) : Bool :=
  (List.range (s.length + 1)).any (fun i => matchAtoms r (s.drop i))

/-- The exclude check the code performs for one pattern and one relative
path: translate the glob by the two replacements, compile, and `test` the
path.  (A pattern whose translation leaves the modelled regex fragment is
treated as non-matching.) -/
def isExcluded (pattern path : String) : Bool :=
  match parseRegex (replaceStar (replaceStarStar pattern.data)) with
  | some r => regexTest r path.data
  | none => false

/-- Modelled from the spec (§4.2): translation of a glob where `**` stands
for any sequence of path segments (`.*`), `*` for any characters within one
segment (`[^/]*`), substituted in that order; escaping the literal separator
`/` does not change its meaning, so it is kept as a literal atom.  This is
the comparison point for the refinement claim about the code's translation,
not a translation performed by the code. -/
def specGlobAtoms : List Char → List RegexAtom
  | [] => []
  | '*' :: '*' :: rest => RegexAtom.starAny :: specGlobAtoms rest
  | '*' :: rest => RegexAtom.starNonSep :: specGlobAtoms rest
  | '.' :: rest => RegexAtom.dot :: specGlobAtoms rest
  | c :: rest => RegexAtom.lit c :: specGlobAtoms rest

/-- Exclusion as the spec describes the translation. -/
def specIsExcluded (pattern path : String) : Bool :=
  regexTest (specGlobAtoms pattern.data) path.data

/-- What the code's two replacements actually amount to, atom by atom: the
second replacement rewrites the `*` of the `.*` produced for `**`, so `**`
compiles to `.[^/]*` (one arbitrary character, then characters within one
segment) rather than `.*`. -/
def effectiveGlobAtoms : List Char → List RegexAtom
  | [] => []
  | '*' :: '*' :: rest => RegexAtom.dot :: RegexAtom.starNonSep :: effectiveGlobAtoms rest
  | '*' :: rest => RegexAtom.starNonSep :: effectiveGlobAtoms rest
  | '.' :: rest => RegexAtom.dot :: effectiveGlobAtoms rest
  | c :: rest => RegexAtom.lit c :: effectiveGlobAtoms rest

/-- Glob patterns built from characters with no special regex meaning
(besides the wildcards themselves and `.`). -/
def plainGlob (p : List Char) : Prop :=
  ∀ c ∈ p, (regexSpecial c = false) ∨ c = '*'


/-! ## Data model: severities, diagnostic records, tree items

`DiagnosticSeverity` of the host API; `DiagnosticItem` of `src/types`
(reconstructed from its uses: `type`, `label`, optional `uri`, optional
`severity`, optional `source`, optional `code`, optional `children`).  A
`uri` is represented by its `fsPath` string; an absent optional field is
`none`, and an absent `children` is the empty list (the code only reads
`children` through truthiness guards and pushes, which cannot distinguish
`undefined` from `[]`).  `code` (a string or number in the host API) is
represented as an optional string. -/

inductive Severity : Type where
  | error
  | warning
  | information
  | hint
deriving DecidableEq, Repr

/-- A raw diagnostic as the severity filter sees it. -/
structure DiagnosticRecord where
  severity : Severity
  message : String
deriving DecidableEq, Repr

/-- The per-diagnostic severity filter of `getDiagnostics` /
`collectFromFullProjectScan`:

```
if (diagnostic.severity === vscode.DiagnosticSeverity.Error && !showErrors) continue;
if (diagnostic.severity === vscode.DiagnosticSeverity.Warning && !showWarnings) continue;
items.push(...)
```
-/
def filterBySeverity (showErrors showWarnings : Bool) :
    List DiagnosticRecord → List DiagnosticRecord
  | [] => []
  | d :: rest =>
    if d.severity = Severity.error ∧ showErrors = false then
      filterBySeverity showErrors showWarnings rest
    else if d.severity = Severity.warning ∧ showWarnings = false then
      filterBySeverity showErrors showWarnings rest
    else d :: filterBySeverity showErrors showWarnings rest

inductive ItemType : Type where
  | diagnostic
  | file
  | errorType
deriving DecidableEq, Repr

inductive DiagItem : Type where
  | mk (type : ItemType) (label : String) (uriPath : Option String)
    (severity : Option Severity) (source : Option String)
    (code : Option String) (children : List DiagItem)

def DiagItem.type : DiagItem → ItemType
  | DiagItem.mk t _ _ _ _ _ _ => t

def DiagItem.label : DiagItem → String
  | DiagItem.mk _ l _ _ _ _ _ => l

def DiagItem.uriPath : DiagItem → Option String
  | DiagItem.mk _ _ u _ _ _ _ => u

def DiagItem.severity : DiagItem → Option Severity
  | DiagItem.mk _ _ _ sv _ _ _ => sv

def DiagItem.source : DiagItem → Option String
  | DiagItem.mk _ _ _ _ src _ _ => src

def DiagItem.code : DiagItem → Option String
  | DiagItem.mk _ _ _ _ _ cd _ => cd

def DiagItem.children : DiagItem → List DiagItem
  | DiagItem.mk _ _ _ _ _ _ ch => ch

/-- Replace the children list (used for `fileGroup.children = errorGroups`
in `groupByBoth` and for `children.push`). -/
def DiagItem.withChildren : DiagItem → List DiagItem → DiagItem
  | DiagItem.mk t l u sv src cd _, ch => DiagItem.mk t l u sv src cd ch

/-- `group.children.push(item)`. -/
def pushChild (g i : DiagItem) : DiagItem :=
  g.withChildren (g.children ++ [i])

/-! ## Flattening and leaf counting (`treeViewProvider.ts`) -/

/-- `flattenDiagnostics`: depth-first walk collecting the nodes with
`type === 'diagnostic'` (and, as in the code, recursing into children of
every node that has them). -/
def flattenDiagnostics : List DiagItem → List DiagItem
  | [] => []
  | DiagItem.mk t l u sv src cd ch :: rest =>
    (if t = ItemType.diagnostic then [DiagItem.mk t l u sv src cd ch] else []) ++
      flattenDiagnostics ch ++ flattenDiagnostics rest

/-- Number of diagnostic-typed nodes reachable in a tree (the
"LeafDiagnostic" count of the spec). -/
def leafCount : List DiagItem → Nat
  | [] => 0
  | DiagItem.mk t _ _ _ _ _ ch :: rest =>
    (if t = ItemType.diagnostic then 1 else 0) + leafCount ch + leafCount rest

/-! ## Grouping (`treeViewProvider.ts` `groupByFile` / `groupByErrorType` /
`groupByBoth` / `groupDiagnostics`)

A JavaScript `Map` preserves insertion order: `set` of a fresh key appends
an entry, `get(...).children.push(item)` mutates the entry in place.  We
model the map as an association list built in insertion order. -/

/-- `if (!map.has(key)) map.set(key, fresh); map.get(key)!.children.push(item)`. -/
def mapPush : List (String × DiagItem) → String → DiagItem → DiagItem →
    List (String × DiagItem)
  | [], key, fresh, i => [(key, pushChild fresh i)]
  | (k, g) :: rest, key, fresh, i =>
    if k = key then (k, pushChild g i) :: rest
    else (k, g) :: mapPush rest key fresh i

/-- `vscode.workspace.asRelativePath`, an external host call; modelled as
the identity on the stored path. -/
def asRelativePath (p : String) : String := p

/-- The fresh file-group node `groupByFile` creates for a diagnostic with
uri path `p`. -/
def fileGroup (p : String) : DiagItem :=
  DiagItem.mk ItemType.file (asRelativePath p) (some p) none none none []

/-- The `for (const item of items)` loop of `groupByFile`, keyed by
`item.uri.fsPath`, guarded by `item.type === 'diagnostic' && item.uri`. -/
def buildFileGroups : List DiagItem → List (String × DiagItem) →
    List (String × DiagItem)
  | [], m => m
  | i :: rest, m =>
    if i.type = ItemType.diagnostic then
      match i.uriPath with
      | some p => buildFileGroups rest (mapPush m p (fileGroup p) i)
      | none => buildFileGroups rest m
    else buildFileGroups rest m

/-- JavaScript `x || d` for an optional string `x`: `undefined` and the
empty string are falsy. -/
def jsOr (x : Option String) (d : String) : String :=
  match x with
  | none => d
  | some s => if s = "" then d else s

/-- Truthiness of an optional string. -/
def truthyStr (x : Option String) : Bool :=
  match x with
  | none => false
  | some s => !(s = "")

/-- Template-literal interpolation of an optional string
(`undefined` prints as "undefined"). -/
def jsTemplate (x : Option String) : String :=
  match x with
  | none => "undefined"
  | some s => s

/-- The map key of `groupByErrorType`:
`` `${item.source || 'unknown'}:${item.code || 'unknown'}` ``. -/
def ruleKey (source code : Option String) : String :=
  jsOr source "unknown" ++ ":" ++ jsOr code "unknown"

/-- The label of a rule group:
`` item.code ? `${item.source}: ${item.code}` : item.source || 'Unknown' ``. -/
def ruleLabel (source code : Option String) : String :=
  if truthyStr code then jsTemplate source ++ ": " ++ jsTemplate code
  else if truthyStr source then jsTemplate source
  else "Unknown"

/-- The fresh rule-group node `groupByErrorType` creates for item `i`. -/
def ruleGroup (i : DiagItem) : DiagItem :=
  DiagItem.mk ItemType.errorType (ruleLabel i.source i.code) none none
    i.source i.code []

/-- The `for (const item of items)` loop of `groupByErrorType`, guarded by
`item.type === 'diagnostic'`. -/
def buildRuleGroups : List DiagItem → List (String × DiagItem) →
    List (String × DiagItem)
  | [], m => m
  | i :: rest, m =>
    if i.type = ItemType.diagnostic then
      buildRuleGroups rest (mapPush m (ruleKey i.source i.code) (ruleGroup i) i)
    else buildRuleGroups rest m

/-- Insert into a label-sorted list (`Array.prototype.sort` with the
comparator `(a, b) => a.label.localeCompare(b.label)`, modelled as a stable
sort under code-point string order). -/
def insertByLabel (i : DiagItem) : List DiagItem → List DiagItem
  | [] => [i]
  | j :: rest =>
    if i.label ≤ j.label then i :: j :: rest
    else j :: insertByLabel i rest

/-- `array.sort((a, b) => a.label.localeCompare(b.label))`. -/
def sortByLabel : List DiagItem → List DiagItem
  | [] => []
  | i :: rest => insertByLabel i (sortByLabel rest)

/-- `groupByFile`. -/
def groupByFile (items : List DiagItem) : List DiagItem :=
  sortByLabel ((buildFileGroups items []).map Prod.snd)

/-- `groupByErrorType`. -/
def groupByErrorType (items : List DiagItem) : List DiagItem :=
  sortByLabel ((buildRuleGroups items []).map Prod.snd)

/-- `groupByBoth`: group by file, then regroup each file group's children
by error type. -/
def groupByBoth (items : List DiagItem) : List DiagItem :=
  (groupByFile items).map (fun g => g.withChildren (groupByErrorType g.children))

/-- The `groupBy` configuration value; `flat` stands for any value outside
the three recognised modes (the `default` arm of the switch). -/
inductive GroupMode : Type where
  | file
  | errorType
  | both
  | flat
deriving DecidableEq, Repr

/-- `groupDiagnostics`. -/
def groupDiagnostics (items : List DiagItem) : GroupMode → List DiagItem
  | GroupMode.file => groupByFile items
  | GroupMode.errorType => groupByErrorType items
  | GroupMode.both => groupByBoth items
  | GroupMode.flat => items

/-! ## The refresh coordinator (`DiagnosticsTreeProvider`)

State of one `DiagnosticsTreeProvider` plus the observable effects the
claims speak about.  `refreshTimeout` holds the delay of the pending
debounce timer (`none` = no timer).  `badge` is the tree view badge value
(`none` = badge cleared, `some v` = a badge with numeric value `v`).
`fireCount` counts `_onDidChangeTreeData.fire` calls (each one makes the
host pull the tree again, i.e. starts a scan when the view is live).
`followUpTimers` records the delays of the follow-up rescans scheduled by
the `finally` block of `getChildren`. -/

structure ProviderState where
  isPaused : Bool
  isRefreshing : Bool
  pendingRefresh : Bool
  refreshTimeout : Option Nat
  flatDiagnosticsList : List DiagItem
  currentIndex : Int
  treeViewAttached : Bool
  badge : Option Nat
  message : Option String
  fireCount : Nat
  followUpTimers : List Nat

/-- The state right after `new DiagnosticsTreeProvider(context)` (no tree
view attached yet): `currentIndex = 0`, empty flat list, no flags set. -/
def initialState : ProviderState :=
  { isPaused := false
    isRefreshing := false
    pendingRefresh := false
    refreshTimeout := none
    flatDiagnosticsList := []
    currentIndex := 0
    treeViewAttached := false
    badge := none
    message := none
    fireCount := 0
    followUpTimers := [] }

/-- `setTreeView`. -/
def ProviderState.setTreeView (s : ProviderState) : ProviderState :=
  { s with treeViewAttached := true }

/-- `refresh()` (the debounced `requestRefresh`): no-op while paused; while
a scan runs it only sets `pendingRefresh`; otherwise it cancels and
restarts the 500 ms debounce timer. -/
def ProviderState.refresh (s : ProviderState) : ProviderState :=
  if s.isPaused then s
  else if s.isRefreshing then { s with pendingRefresh := true }
  else { s with refreshTimeout := some 500 }

/-- `refreshImmediate()` (`requestRefreshImmediate`): no-op while paused;
cancels the debounce timer, then either marks `pendingRefresh` (scan in
flight) or fires the data-changed event. -/
def ProviderState.refreshImmediate (s : ProviderState) : ProviderState :=
  if s.isPaused then s
  else
    let s1 := { s with refreshTimeout := none }
    if s1.isRefreshing then { s1 with pendingRefresh := true }
    else { s1 with fireCount := s1.fireCount + 1 }

/-- `updateBadge()`: count the Error-severity items of the flat list; a
positive count becomes the badge value, zero clears the badge. -/
def ProviderState.updateBadge (s : ProviderState) : ProviderState :=
  if s.treeViewAttached = false then s
  else
    let errorCount :=
      (s.flatDiagnosticsList.filter
        (fun i => i.severity = some Severity.error)).length
    if errorCount > 0 then { s with badge := some errorCount }
    else { s with badge := none }

/-- `showScanningBadge()`: badge value `0` with a scanning tooltip. -/
def ProviderState.showScanningBadge (s : ProviderState) : ProviderState :=
  if s.treeViewAttached = false then s
  else { s with badge := some 0 }

/-- `togglePause()`: flip the flag; pausing shows the paused message and a
zero badge, resuming clears the message and calls `refreshImmediate`. -/
def ProviderState.togglePause (s : ProviderState) : ProviderState :=
  let s1 := { s with isPaused := !s.isPaused }
  if s1.isPaused then
    if s1.treeViewAttached then
      { s1 with message := some "$(debug-pause) Scanning paused", badge := some 0 }
    else s1
  else
    let s2 := if s1.treeViewAttached then { s1 with message := none } else s1
    s2.refreshImmediate

/-- The prefix of a root-level `getChildren` call up to the first `await`:
sets `isRefreshing`, shows the scanning badge and the scanning message.
(The paused early-return happens before any of this.) -/
def ProviderState.scanStart (s : ProviderState) : ProviderState :=
  if s.isPaused then s
  else
    let s1 := ({ s with isRefreshing := true }).showScanningBadge
    if s1.treeViewAttached then
      { s1 with message := some "$(sync~spin) Scanning project..." }
    else s1

/-- The rest of a successful root-level `getChildren` call, given the
`diagnosticItems` the provider returned: store the flat list, update the
badge, clear the message, then the `finally` block clears `isRefreshing`
and, if `pendingRefresh` was set, clears it and schedules exactly one
follow-up refresh with a 100 ms delay. -/
def ProviderState.scanComplete (s : ProviderState) (diagnosticItems : List DiagItem) :
    ProviderState :=
  let s1 := { s with flatDiagnosticsList := flattenDiagnostics diagnosticItems }
  let s2 := s1.updateBadge
  let s3 := if s2.treeViewAttached then { s2 with message := none } else s2
  let s4 := { s3 with isRefreshing := false }
  if s4.pendingRefresh then
    { s4 with pendingRefresh := false, followUpTimers := s4.followUpTimers ++ [100] }
  else s4

/-- The debounce timer firing: `refreshBadgeInBackground` (skipped without
a tree view or while refreshing) followed by the data-changed fire. -/
def ProviderState.debounceFire (s : ProviderState) (diagnosticItems : List DiagItem) :
    ProviderState :=
  let s0 := { s with refreshTimeout := none }
  let s1 :=
    if s0.treeViewAttached = false ∨ s0.isRefreshing = true then s0
    else
      ({ s0.showScanningBadge with
          flatDiagnosticsList := flattenDiagnostics diagnosticItems }).updateBadge
  { s1 with fireCount := s1.fireCount + 1 }

/-- `navigateToNext()`.  JavaScript `%` truncates toward zero; it agrees
with `Int.emod` here because the dividend is nonnegative in every reachable
state (`reachable_currentIndex_nonneg`). -/
def ProviderState.navigateToNext (s : ProviderState) : ProviderState :=
  if s.flatDiagnosticsList.length = 0 then s
  else
    { s with currentIndex :=
        (s.currentIndex + 1) % (s.flatDiagnosticsList.length : Int) }

/-- `navigateToPrevious()`; the `+ length` before `%` keeps the dividend
nonnegative exactly as in the code. -/
def ProviderState.navigateToPrevious (s : ProviderState) : ProviderState :=
  if s.flatDiagnosticsList.length = 0 then s
  else
    { s with currentIndex :=
        (s.currentIndex - 1 + (s.flatDiagnosticsList.length : Int)) %
          (s.flatDiagnosticsList.length : Int) }

/-- States reachable from construction through the provider's public
operations. -/
inductive Reachable : ProviderState → Prop where
  | init : Reachable initialState
  | setTreeView {s} : Reachable s → Reachable s.setTreeView
  | refresh {s} : Reachable s → Reachable s.refresh
  | refreshImmediate {s} : Reachable s → Reachable s.refreshImmediate
  | togglePause {s} : Reachable s → Reachable s.togglePause
  | scanStart {s} : Reachable s → Reachable s.scanStart
  | scanComplete {s} (items : List DiagItem) : Reachable s →
      Reachable (s.scanComplete items)
  | debounceFire {s} (items : List DiagItem) : Reachable s →
      Reachable (s.debounceFire items)
  | navigateToNext {s} : Reachable s → Reachable s.navigateToNext
  | navigateToPrevious {s} : Reachable s → Reachable s.navigateToPrevious

/-- A refresh request, as in the single-flight claim. -/
inductive RefreshRequest : Type where
  | debounced
  | immediate
deriving DecidableEq, Repr

/-- Apply one request. -/
def applyRequest (s : ProviderState) : RefreshRequest → ProviderState
  | RefreshRequest.debounced => s.refresh
  | RefreshRequest.immediate => s.refreshImmediate

/-- Apply a sequence of requests in order. -/
def applyRequests : List RefreshRequest → ProviderState → ProviderState
  | [], s => s
  | r :: rest, s => applyRequests rest (applyRequest s r)

/-! ## TypeScript diagnostic conversion (`tsChecker.ts` and its
`unnamed/part_002` variant) -/

/-- A line/character position as returned by
`getLineAndCharacterOfPosition`. -/
structure LineChar where
  line : Nat
  character : Nat
deriving DecidableEq, Repr

/-- The part of a `ts.SourceFile` the conversion uses: the position
mapping. -/
structure TsSourceFile where
  lineCharOfPos : Nat → LineChar

/-- `ts.DiagnosticCategory`. -/
inductive DiagnosticCategory : Type where
  | warning
  | error
  | suggestion
  | message
deriving DecidableEq, Repr

/-- The part of a `ts.Diagnostic` the conversion reads.  `messageText` is
the already-flattened message: both implementations apply
`ts.flattenDiagnosticMessageText(tsDiag.messageText, chr)` identically, so
the external flattening is modelled as the identity. -/
structure TsDiagnostic where
  file : Option TsSourceFile
  start : Option Nat
  length : Option Nat
  category : DiagnosticCategory
  messageText : String
  code : Nat

/-- A `vscode.Range`. -/
structure VsRange where
  startPos : LineChar
  endPos : LineChar
deriving DecidableEq, Repr

/-- The `vscode.Diagnostic` the conversions build. -/
structure VsDiagnostic where
  range : VsRange
  message : String
  severity : Severity
  source : Option String
  code : Option Nat
deriving DecidableEq, Repr

/-- The category-to-severity switch, identical in both implementations
(the `default: Error` arm is unreachable over the four-value enum). -/
def severityOfCategory : DiagnosticCategory → Severity
  | DiagnosticCategory.error => Severity.error
  | DiagnosticCategory.warning => Severity.warning
  | DiagnosticCategory.suggestion => Severity.hint
  | DiagnosticCategory.message => Severity.information

/-- `convertDiagnostic` of `src/utils/tsChecker.ts`: requires a file;
an undefined `start` falls back to position `(0,0)`, an undefined `start`
or `length` gives end position `(0,0)`. -/
def convertDiagnostic (tsDiag : TsDiagnostic) : Option VsDiagnostic :=
  match tsDiag.file with
  | none => none
  | some file =>
    let startLC :=
      match tsDiag.start with
      | some s => file.lineCharOfPos s
      | none => { line := 0, character := 0 }
    let endLC :=
      match tsDiag.start, tsDiag.length with
      | some s, some l => file.lineCharOfPos (s + l)
      | _, _ => { line := 0, character := 0 }
    some
      { range := { startPos := startLC, endPos := endLC }
        message := tsDiag.messageText
        severity := severityOfCategory tsDiag.category
        source := some "ts"
        code := some tsDiag.code }

/-- `convertDiagnostic` of `unnamed/part_002`: the guard
`if (!tsDiag.file || !tsDiag.start) return undefined` also rejects a
defined `start` of `0` (JavaScript falsiness), and the end position uses
`tsDiag.start + (tsDiag.length || 0)`. -/
def convertDiagnosticAlt (tsDiag : TsDiagnostic) : Option VsDiagnostic :=
  match tsDiag.file with
  | none => none
  | some file =>
    match tsDiag.start with
    | none => none
    | some s =>
      if s = 0 then none
      else
        let startLC := file.lineCharOfPos s
        let endLC := file.lineCharOfPos (s + (tsDiag.length.getD 0))
        some
          { range := { startPos := startLC, endPos := endLC }
            message := tsDiag.messageText
            severity := severityOfCategory tsDiag.category
            source := some "ts"
            code := some tsDiag.code }

/-! ## Derived notions used by the statements -/

/-- The normalized rule key recomputed from a node's own `source`/`code`
fields (a rule group stores the `source` and `code` of the first item of
its key, so this recovers its map key). -/
def groupKey (g : DiagItem) : String :=
  ruleKey g.source g.code

/-- Children of the first entry with the given key, `[]` when absent. -/
def lookupChildren (m : List (String × DiagItem)) (k : String) : List DiagItem :=
  match m.find? (fun e => e.1 = k) with
  | some e => e.2.children
  | none => []

/-- A well-formed leaf item as the provider produces them: a diagnostic
node carrying a uri and no children. -/
def WFLeaf (i : DiagItem) : Prop :=
  i.type = ItemType.diagnostic ∧ i.uriPath.isSome = true ∧ i.children = []

/-- A diagnostic node with no children (what the rule grouping needs). -/
def WFDiag (i : DiagItem) : Prop :=
  i.type = ItemType.diagnostic ∧ i.children = []

/-! ## Theorems: the glob translation -/

theorem replaceStarStar_nil : replaceStarStar [] = [] := rfl

theorem replaceStarStar_star_star (r : List Char) :
    replaceStarStar ('*' :: '*' :: r) = '.' :: '*' :: replaceStarStar r := rfl

theorem replaceStarStar_star_single : replaceStarStar ['*'] = ['*'] := rfl

theorem replaceStarStar_star_ne {c : Char} (r : List Char) (h : ¬ c = '*') :
    replaceStarStar ('*' :: c :: r) = '*' :: replaceStarStar (c :: r) := by
  rw [replaceStarStar.eq_def]; simp [h]

theorem replaceStarStar_ne {c : Char} (r : List Char) (h : ¬ c = '*') :
    replaceStarStar (c :: r) = c :: replaceStarStar r := by
  rw [replaceStarStar.eq_def]; simp [h]

theorem replaceStar_nil : replaceStar [] = [] := rfl

theorem replaceStar_star (r : List Char) :
    replaceStar ('*' :: r) = '[' :: '^' :: '/' :: ']' :: '*' :: replaceStar r := rfl

theorem replaceStar_ne {c : Char} (r : List Char) (h : ¬ c = '*') :
    replaceStar (c :: r) = c :: replaceStar r := by
  rw [replaceStar]; simp [h]

theorem replaceStar_head_ne_star (x : List Char) :
    (replaceStar x).head? ≠ some '*' := by
  cases x with
  | nil => simp [replaceStar]
  | cons c r =>
    by_cases h : c = '*'
    · subst h; rw [replaceStar_star]; simp
    · rw [replaceStar_ne r h]; simp [h]

theorem parseRegex_bracket (s : List Char) :
    parseRegex ('[' :: '^' :: '/' :: ']' :: '*' :: s) =
      (parseRegex s).map (fun r => RegexAtom.starNonSep :: r) := rfl

theorem parseRegex_dot (s : List Char) :
    parseRegex ('.' :: s) = (parseRegex s).map (fun r => RegexAtom.dot :: r) := by
  rw [parseRegex, if_neg (by decide), if_pos rfl]

theorem parseRegex_lit {c : Char} (s : List Char) (h1 : regexSpecial c = false)
    (h2 : ¬ c = '.') :
    parseRegex (c :: s) = (parseRegex s).map (fun r => RegexAtom.lit c :: r) := by
  have hb : ¬ c = '[' := by
    intro hc; subst hc; simp [regexSpecial] at h1
  rw [parseRegex, if_neg hb, if_neg h2, if_neg (by simp [h1])]

theorem effectiveGlobAtoms_star_ne {c : Char} (r : List Char) (h : ¬ c = '*') :
    effectiveGlobAtoms ('*' :: c :: r) =
      RegexAtom.starNonSep :: effectiveGlobAtoms (c :: r) := by
  rw [effectiveGlobAtoms.eq_def]; simp [h]

theorem effectiveGlobAtoms_lit {c : Char} (r : List Char) (h1 : ¬ c = '*')
    (h2 : ¬ c = '.') :
    effectiveGlobAtoms (c :: r) = RegexAtom.lit c :: effectiveGlobAtoms r := by
  rw [effectiveGlobAtoms.eq_def]; simp [h1, h2]

/-- The regex the code compiles from a plain glob pattern parses exactly to
the effective atom translation: `**` becomes `.[^/]*`, a lone `*` becomes
`[^/]*`, `.` stays the any-character atom, everything else is literal. -/
theorem parse_translate (p : List Char) (hp : plainGlob p) :
    parseRegex (replaceStar (replaceStarStar p)) = some (effectiveGlobAtoms p) := by
  induction p using effectiveGlobAtoms.induct with
  | case1 =>
    simp [replaceStarStar, replaceStar, parseRegex, effectiveGlobAtoms]
  | case2 rest ih =>
    have hrest : plainGlob rest := by
      intro c hc; exact hp c (by simp [hc])
    rw [replaceStarStar_star_star]
    rw [replaceStar_ne _ (by decide)]
    rw [replaceStar_star]
    rw [parseRegex_dot, parseRegex_bracket, ih hrest]
    rfl
  | case3 rest hne ih =>
    have hrest : plainGlob rest := by
      intro c hc; exact hp c (by simp [hc])
    cases rest with
    | nil =>
      rw [replaceStarStar_star_single, replaceStar_star, replaceStar_nil,
        parseRegex_bracket]
      rfl
    | cons c r =>
      have hc : ¬ c = '*' := by
        intro h; exact hne r (by rw [h])
      rw [replaceStarStar_star_ne _ hc, replaceStar_star, parseRegex_bracket,
        ih hrest, effectiveGlobAtoms_star_ne _ hc]
      rfl
  | case4 rest ih =>
    have hrest : plainGlob rest := by
      intro c hc; exact hp c (by simp [hc])
    rw [replaceStarStar_ne _ (by decide), replaceStar_ne _ (by decide),
      parseRegex_dot, ih hrest]
    rfl
  | case5 c rest h1 h2 h3 ih =>
    have hrest : plainGlob rest := by
      intro x hx; exact hp x (by simp [hx])
    have hcs : ¬ c = '*' := h2
    have hcd : ¬ c = '.' := h3
    have hspec : regexSpecial c = false := by
      rcases hp c (by simp) with h | h
      · exact h
      · exact absurd h hcs
    rw [replaceStarStar_ne _ hcs, replaceStar_ne _ hcs,
      parseRegex_lit _ hspec hcd, ih hrest, effectiveGlobAtoms_lit _ hcs hcd]
    rfl

/-! ## Theorems: severity filter -/

theorem filterBySeverity_eq_filter (showE showW : Bool) (l : List DiagnosticRecord) :
    filterBySeverity showE showW l =
      l.filter (fun d =>
        !(decide ((d.severity = Severity.error ∧ showE = false) ∨
                  (d.severity = Severity.warning ∧ showW = false)))) := by
  induction l with
  | nil => rfl
  | cons d rest ih =>
    rw [filterBySeverity, List.filter_cons]
    by_cases h1 : d.severity = Severity.error ∧ showE = false
    · have hp : (!(decide ((d.severity = Severity.error ∧ showE = false) ∨
          (d.severity = Severity.warning ∧ showW = false)))) = false := by
        simp [h1.1, h1.2]
      rw [if_pos h1, ih, hp]
      simp
    · by_cases h2 : d.severity = Severity.warning ∧ showW = false
      · have hp : (!(decide ((d.severity = Severity.error ∧ showE = false) ∨
            (d.severity = Severity.warning ∧ showW = false)))) = false := by
          simp [h2.1, h2.2]
        rw [if_neg h1, if_pos h2, ih, hp]
        simp
      · have hp : (!(decide ((d.severity = Severity.error ∧ showE = false) ∨
            (d.severity = Severity.warning ∧ showW = false)))) = true := by
          simp only [Bool.not_eq_true', decide_eq_false_iff_not]
          exact not_or.mpr ⟨h1, h2⟩
        rw [if_neg h1, if_neg h2, ih, hp]
        simp

/-! ## Theorems: the provider state machine -/

theorem updateBadge_proj (s : ProviderState) :
    (s.updateBadge).isPaused = s.isPaused ∧
    (s.updateBadge).isRefreshing = s.isRefreshing ∧
    (s.updateBadge).pendingRefresh = s.pendingRefresh ∧
    (s.updateBadge).refreshTimeout = s.refreshTimeout ∧
    (s.updateBadge).flatDiagnosticsList = s.flatDiagnosticsList ∧
    (s.updateBadge).currentIndex = s.currentIndex ∧
    (s.updateBadge).treeViewAttached = s.treeViewAttached ∧
    (s.updateBadge).fireCount = s.fireCount ∧
    (s.updateBadge).followUpTimers = s.followUpTimers := by
  simp only [ProviderState.updateBadge]
  split
  · exact ⟨rfl, rfl, rfl, rfl, rfl, rfl, rfl, rfl, rfl⟩
  · split <;> exact ⟨rfl, rfl, rfl, rfl, rfl, rfl, rfl, rfl, rfl⟩

theorem updateBadge_badge (s : ProviderState) (h : s.treeViewAttached = true) :
    (s.updateBadge).badge =
      (if 0 < (s.flatDiagnosticsList.filter
          (fun i => i.severity = some Severity.error)).length
       then some ((s.flatDiagnosticsList.filter
          (fun i => i.severity = some Severity.error)).length)
       else none) := by
  simp only [ProviderState.updateBadge, h]
  by_cases hc : 0 < (s.flatDiagnosticsList.filter
      (fun i => i.severity = some Severity.error)).length
  · simp [hc]
  · simp [hc]

theorem refresh_paused (s : ProviderState) (h : s.isPaused = true) :
    s.refresh = s := by
  simp [ProviderState.refresh, h]

theorem refreshImmediate_paused (s : ProviderState) (h : s.isPaused = true) :
    s.refreshImmediate = s := by
  simp [ProviderState.refreshImmediate, h]

theorem refresh_during_scan (s : ProviderState) (hp : s.isPaused = false)
    (hr : s.isRefreshing = true) :
    s.refresh = { s with pendingRefresh := true } := by
  simp [ProviderState.refresh, hp, hr]

theorem refreshImmediate_during_scan (s : ProviderState) (hp : s.isPaused = false)
    (hr : s.isRefreshing = true) :
    s.refreshImmediate = { s with pendingRefresh := true, refreshTimeout := none } := by
  simp [ProviderState.refreshImmediate, hp, hr]

theorem applyRequests_during_scan (reqs : List RefreshRequest) (s : ProviderState)
    (hp : s.isPaused = false) (hr : s.isRefreshing = true) :
    (applyRequests reqs s).isPaused = false ∧
    (applyRequests reqs s).isRefreshing = true ∧
    (applyRequests reqs s).fireCount = s.fireCount ∧
    (applyRequests reqs s).followUpTimers = s.followUpTimers ∧
    (applyRequests reqs s).flatDiagnosticsList = s.flatDiagnosticsList ∧
    (applyRequests reqs s).badge = s.badge ∧
    (applyRequests reqs s).pendingRefresh = (s.pendingRefresh || !reqs.isEmpty) := by
  induction reqs generalizing s with
  | nil => simp [applyRequests, hp, hr]
  | cons r rest ih =>
    cases r with
    | debounced =>
      have hstep : applyRequest s RefreshRequest.debounced =
          { s with pendingRefresh := true } := by
        simp [applyRequest, refresh_during_scan s hp hr]
      rw [applyRequests, hstep]
      have := ih { s with pendingRefresh := true } (by simp [hp]) (by simp [hr])
      simpa using this
    | immediate =>
      have hstep : applyRequest s RefreshRequest.immediate =
          { s with pendingRefresh := true, refreshTimeout := none } := by
        simp [applyRequest, refreshImmediate_during_scan s hp hr]
      rw [applyRequests, hstep]
      have := ih { s with pendingRefresh := true, refreshTimeout := none }
        (by simp [hp]) (by simp [hr])
      simpa using this

theorem scanComplete_proj (s : ProviderState) (items : List DiagItem) :
    (s.scanComplete items).isPaused = s.isPaused ∧
    (s.scanComplete items).isRefreshing = false ∧
    (s.scanComplete items).pendingRefresh = false ∧
    (s.scanComplete items).flatDiagnosticsList = flattenDiagnostics items ∧
    (s.scanComplete items).currentIndex = s.currentIndex ∧
    (s.scanComplete items).treeViewAttached = s.treeViewAttached ∧
    (s.scanComplete items).fireCount = s.fireCount ∧
    (s.scanComplete items).followUpTimers =
      (if s.pendingRefresh = true then s.followUpTimers ++ [100]
       else s.followUpTimers) := by
  obtain ⟨p1, p2, p3, p4, p5, p6, p7, p8, p9⟩ :=
    updateBadge_proj { s with flatDiagnosticsList := flattenDiagnostics items }
  simp only [ProviderState.scanComplete]
  revert p1 p2 p3 p4 p5 p6 p7 p8 p9
  generalize ({ s with flatDiagnosticsList := flattenDiagnostics items }).updateBadge = u
  intro p1 p2 p3 p4 p5 p6 p7 p8 p9
  split <;> split <;> simp_all

theorem scanComplete_badge (s : ProviderState) (items : List DiagItem)
    (h : s.treeViewAttached = true) :
    (s.scanComplete items).badge =
      (if 0 < ((flattenDiagnostics items).filter
          (fun i => i.severity = some Severity.error)).length
       then some (((flattenDiagnostics items).filter
          (fun i => i.severity = some Severity.error)).length)
       else none) := by
  have hb := updateBadge_badge
    { s with flatDiagnosticsList := flattenDiagnostics items } (by simpa using h)
  obtain ⟨p1, p2, p3, p4, p5, p6, p7, p8, p9⟩ :=
    updateBadge_proj { s with flatDiagnosticsList := flattenDiagnostics items }
  simp only [ProviderState.scanComplete]
  simp only at hb
  revert hb p1 p2 p3 p4 p5 p6 p7 p8 p9
  generalize ({ s with flatDiagnosticsList := flattenDiagnostics items }).updateBadge = u
  intro hb p1 p2 p3 p4 p5 p6 p7 p8 p9
  split <;> split <;> simp_all

theorem togglePause_resume (s : ProviderState) (h : s.isPaused = true)
    (hr : s.isRefreshing = false) :
    (s.togglePause).isPaused = false ∧
    (s.togglePause).fireCount = s.fireCount + 1 := by
  by_cases ht : s.treeViewAttached = true <;>
    simp [ProviderState.togglePause, ProviderState.refreshImmediate, h, hr, ht]

theorem navigateToNext_bounds (s : ProviderState)
    (h : 0 < s.flatDiagnosticsList.length) :
    0 ≤ (s.navigateToNext).currentIndex ∧
    (s.navigateToNext).currentIndex < (s.flatDiagnosticsList.length : Int) := by
  have hpos : (0 : Int) < (s.flatDiagnosticsList.length : Int) := by exact_mod_cast h
  simp only [ProviderState.navigateToNext]
  rw [if_neg (by omega : ¬ s.flatDiagnosticsList.length = 0)]
  refine ⟨Int.emod_nonneg _ (by omega), ?_⟩
  simpa using Int.emod_lt_of_pos (s.currentIndex + 1) hpos

theorem navigateToPrevious_bounds (s : ProviderState)
    (h : 0 < s.flatDiagnosticsList.length) :
    0 ≤ (s.navigateToPrevious).currentIndex ∧
    (s.navigateToPrevious).currentIndex < (s.flatDiagnosticsList.length : Int) := by
  have hpos : (0 : Int) < (s.flatDiagnosticsList.length : Int) := by exact_mod_cast h
  simp only [ProviderState.navigateToPrevious]
  rw [if_neg (by omega : ¬ s.flatDiagnosticsList.length = 0)]
  refine ⟨Int.emod_nonneg _ (by omega), ?_⟩
  simpa using Int.emod_lt_of_pos
    (s.currentIndex - 1 + (s.flatDiagnosticsList.length : Int)) hpos

theorem refresh_currentIndex (s : ProviderState) :
    (s.refresh).currentIndex = s.currentIndex := by
  simp only [ProviderState.refresh]
  split
  · rfl
  · split <;> rfl

theorem refreshImmediate_currentIndex (s : ProviderState) :
    (s.refreshImmediate).currentIndex = s.currentIndex := by
  simp only [ProviderState.refreshImmediate]
  split
  · rfl
  · split <;> rfl

theorem showScanningBadge_currentIndex (s : ProviderState) :
    (s.showScanningBadge).currentIndex = s.currentIndex := by
  simp only [ProviderState.showScanningBadge]
  split <;> rfl

theorem togglePause_currentIndex (s : ProviderState) :
    (s.togglePause).currentIndex = s.currentIndex := by
  simp only [ProviderState.togglePause]
  split
  · split <;> rfl
  · split <;> simp [refreshImmediate_currentIndex]

theorem scanStart_currentIndex (s : ProviderState) :
    (s.scanStart).currentIndex = s.currentIndex := by
  simp only [ProviderState.scanStart]
  split
  · rfl
  · split <;> simp [showScanningBadge_currentIndex]

theorem debounceFire_currentIndex (s : ProviderState) (items : List DiagItem) :
    (s.debounceFire items).currentIndex = s.currentIndex := by
  obtain ⟨p1, p2, p3, p4, p5, p6, p7, p8, p9⟩ :=
    updateBadge_proj
      { ({ s with refreshTimeout := none }).showScanningBadge with
          flatDiagnosticsList := flattenDiagnostics items }
  simp only [ProviderState.debounceFire]
  split
  · rfl
  · simpa [showScanningBadge_currentIndex] using p6

/-- Every reachable provider state has a nonnegative navigation cursor: the
constructor sets `currentIndex = 0` and every later assignment is a
remainder by the (positive) list length. -/
theorem reachable_currentIndex_nonneg (s : ProviderState) (h : Reachable s) :
    0 ≤ s.currentIndex := by
  induction h with
  | init => simp [initialState]
  | setTreeView _ ih => simpa [ProviderState.setTreeView] using ih
  | refresh _ ih => simpa [refresh_currentIndex] using ih
  | refreshImmediate _ ih => simpa [refreshImmediate_currentIndex] using ih
  | togglePause _ ih => simpa [togglePause_currentIndex] using ih
  | scanStart _ ih => simpa [scanStart_currentIndex] using ih
  | scanComplete items _ ih =>
    rename_i t _
    have := (scanComplete_proj t items).2.2.2.2.1
    simpa [this] using ih
  | debounceFire items _ ih =>
    rename_i t _
    simpa [debounceFire_currentIndex] using ih
  | navigateToNext _ ih =>
    rename_i t _
    by_cases hl : t.flatDiagnosticsList.length = 0
    · simpa [ProviderState.navigateToNext, hl] using ih
    · exact (navigateToNext_bounds t (by omega)).1
  | navigateToPrevious _ ih =>
    rename_i t _
    by_cases hl : t.flatDiagnosticsList.length = 0
    · simpa [ProviderState.navigateToPrevious, hl] using ih
    · exact (navigateToPrevious_bounds t (by omega)).1

/-! ## Theorems: the TypeScript diagnostic conversion -/

/-- C10 (amended): the two `convertDiagnostic` implementations agree on
every diagnostic whose `start` is defined and nonzero and whose `length` is
defined; they are not extensionally equal in general (see the
counterexample: the `part_002` variant rejects `start = 0` because
`!tsDiag.start` is true for the number `0`, and an undefined `length` gives
end position `(0,0)` in one and the start position in the other). -/
theorem convertDiagnostic_agree (d : TsDiagnostic) (s l : Nat)
    (hs : d.start = some s) (hs0 : ¬ s = 0) (hl : d.length = some l) :
    convertDiagnostic d = convertDiagnosticAlt d := by
  cases hf : d.file with
  | none => simp [convertDiagnostic, convertDiagnosticAlt, hf]
  | some file =>
    simp [convertDiagnostic, convertDiagnosticAlt, hf, hs, hl, hs0]

/-! ## Theorems: leaf counting, sorting and map pushing -/

theorem leafCount_singleton (t : ItemType) (l : String) (u : Option String)
    (sv : Option Severity) (src cd : Option String) (ch : List DiagItem) :
    leafCount [DiagItem.mk t l u sv src cd ch] =
      (if t = ItemType.diagnostic then 1 else 0) + leafCount ch := by
  simp [leafCount]

theorem leafCount_cons (i : DiagItem) (rest : List DiagItem) :
    leafCount (i :: rest) = leafCount [i] + leafCount rest := by
  cases i with
  | mk t l u sv src cd ch => simp [leafCount]

theorem leafCount_append (a b : List DiagItem) :
    leafCount (a ++ b) = leafCount a + leafCount b := by
  induction a with
  | nil => simp [leafCount]
  | cons i rest ih =>
    rw [List.cons_append, leafCount_cons i (rest ++ b), ih, leafCount_cons i rest]
    omega

theorem leafCount_eq_sum (l : List DiagItem) :
    leafCount l = (l.map (fun i => leafCount [i])).sum := by
  induction l with
  | nil => simp [leafCount]
  | cons i rest ih => rw [leafCount_cons, ih]; simp

theorem leafCount_perm {l1 l2 : List DiagItem} (h : l1.Perm l2) :
    leafCount l1 = leafCount l2 := by
  rw [leafCount_eq_sum, leafCount_eq_sum]
  exact (h.map _).sum_eq

theorem leafCount_wfLeaf {i : DiagItem} (h1 : i.type = ItemType.diagnostic)
    (h2 : i.children = []) : leafCount [i] = 1 := by
  cases i with
  | mk t l u sv src cd ch =>
    simp [DiagItem.type] at h1
    simp [DiagItem.children] at h2
    simp [leafCount, h1, h2]

theorem leafCount_wf {items : List DiagItem}
    (h : ∀ i ∈ items, i.type = ItemType.diagnostic ∧ i.children = []) :
    leafCount items = items.length := by
  induction items with
  | nil => simp [leafCount]
  | cons i rest ih =>
    obtain ⟨h1, h2⟩ := h i (by simp)
    rw [leafCount_cons, leafCount_wfLeaf h1 h2,
      ih (fun j hj => h j (by simp [hj]))]
    simp [Nat.add_comm]

theorem flattenDiagnostics_nil : flattenDiagnostics [] = [] := by
  rw [flattenDiagnostics]

theorem flattenDiagnostics_wf {items : List DiagItem}
    (h : ∀ i ∈ items, i.type = ItemType.diagnostic ∧ i.children = []) :
    flattenDiagnostics items = items := by
  induction items with
  | nil => simp [flattenDiagnostics]
  | cons i rest ih =>
    obtain ⟨h1, h2⟩ := h i (by simp)
    cases i with
    | mk t l u sv src cd ch =>
      simp only [DiagItem.type] at h1
      simp only [DiagItem.children] at h2
      subst h1
      subst h2
      have hrest := ih (fun j hj => h j (by simp [hj]))
      rw [flattenDiagnostics, hrest, flattenDiagnostics_nil]
      simp

theorem insertByLabel_perm (i : DiagItem) (l : List DiagItem) :
    (insertByLabel i l).Perm (i :: l) := by
  induction l with
  | nil => simp [insertByLabel]
  | cons j rest ih =>
    simp only [insertByLabel]
    split
    · exact List.Perm.refl _
    · exact (ih.cons j).trans (List.Perm.swap i j rest)

theorem sortByLabel_perm (l : List DiagItem) : (sortByLabel l).Perm l := by
  induction l with
  | nil => exact List.Perm.refl _
  | cons i rest ih =>
    exact (insertByLabel_perm i (sortByLabel rest)).trans (ih.cons i)

theorem insertByLabel_pairwise {i : DiagItem} {l : List DiagItem}
    (h : l.Pairwise (fun a b => a.label ≤ b.label)) :
    (insertByLabel i l).Pairwise (fun a b => a.label ≤ b.label) := by
  induction l with
  | nil => simp [insertByLabel]
  | cons j rest ih =>
    rw [List.pairwise_cons] at h
    obtain ⟨hj, hrest⟩ := h
    simp only [insertByLabel]
    split
    · rename_i hle
      refine List.Pairwise.cons ?_ (List.Pairwise.cons hj hrest)
      intro b hb
      rcases List.mem_cons.mp hb with rfl | hb
      · exact hle
      · exact le_trans hle (hj b hb)
    · rename_i hle
      have hji : j.label ≤ i.label := le_of_not_le hle
      refine List.Pairwise.cons ?_ (ih hrest)
      intro b hb
      rcases List.mem_cons.mp ((insertByLabel_perm i rest).mem_iff.mp hb) with rfl | hb2
      · exact hji
      · exact hj b hb2

theorem sortByLabel_pairwise (l : List DiagItem) :
    (sortByLabel l).Pairwise (fun a b => a.label ≤ b.label) := by
  induction l with
  | nil => simp [sortByLabel]
  | cons i rest ih => exact insertByLabel_pairwise ih

theorem pushChild_type (g i : DiagItem) : (pushChild g i).type = g.type := by
  cases g; rfl

theorem pushChild_label (g i : DiagItem) : (pushChild g i).label = g.label := by
  cases g; rfl

theorem pushChild_source (g i : DiagItem) : (pushChild g i).source = g.source := by
  cases g; rfl

theorem pushChild_code (g i : DiagItem) : (pushChild g i).code = g.code := by
  cases g; rfl

theorem pushChild_children (g i : DiagItem) :
    (pushChild g i).children = g.children ++ [i] := by
  cases g; rfl

theorem leafCount_pushChild (g i : DiagItem) :
    leafCount [pushChild g i] = leafCount [g] + leafCount [i] := by
  cases g with
  | mk t l u sv src cd ch =>
    rw [show pushChild (DiagItem.mk t l u sv src cd ch) i =
        DiagItem.mk t l u sv src cd (ch ++ [i]) from rfl,
      leafCount_singleton, leafCount_singleton, leafCount_append]
    omega

theorem mapPush_keys (m : List (String × DiagItem)) (k : String)
    (fresh i : DiagItem) :
    (mapPush m k fresh i).map Prod.fst =
      (if k ∈ m.map Prod.fst then m.map Prod.fst
       else m.map Prod.fst ++ [k]) := by
  induction m with
  | nil => simp [mapPush]
  | cons e rest ih =>
    obtain ⟨k0, g⟩ := e
    simp only [mapPush]
    by_cases hk : k0 = k
    · subst hk
      simp
    · rw [if_neg hk]
      by_cases hmem : k ∈ rest.map Prod.fst
      · simp [ih, hmem, Ne.symm hk]
      · simp [ih, hmem, Ne.symm hk]

theorem mapPush_keys_nodup {m : List (String × DiagItem)} {k : String}
    {fresh i : DiagItem} (h : (m.map Prod.fst).Nodup) :
    ((mapPush m k fresh i).map Prod.fst).Nodup := by
  rw [mapPush_keys]
  by_cases hmem : k ∈ m.map Prod.fst
  · simpa [hmem] using h
  · rw [if_neg hmem, ← List.concat_eq_append]
    exact List.Nodup.concat hmem h

theorem mapPush_entry_cases {m : List (String × DiagItem)} {k : String}
    {fresh i : DiagItem} :
    ∀ e ∈ mapPush m k fresh i,
      e ∈ m ∨ (∃ g, (k, g) ∈ m ∧ e = (k, pushChild g i)) ∨
        e = (k, pushChild fresh i) := by
  induction m with
  | nil =>
    intro e he
    simp [mapPush] at he
    simp [he]
  | cons e0 rest ih =>
    obtain ⟨k0, g⟩ := e0
    intro e he
    simp only [mapPush] at he
    by_cases hk : k0 = k
    · subst hk
      rw [if_pos rfl] at he
      rcases List.mem_cons.mp he with rfl | he2
      · exact Or.inr (Or.inl ⟨g, by simp⟩)
      · exact Or.inl (by simp [he2])
    · rw [if_neg hk] at he
      rcases List.mem_cons.mp he with rfl | he2
      · exact Or.inl (by simp)
      · rcases ih e he2 with h | ⟨g2, hg2, hee⟩ | hee
        · exact Or.inl (by simp [h])
        · exact Or.inr (Or.inl ⟨g2, by simp [hg2], hee⟩)
        · exact Or.inr (Or.inr hee)

theorem lookupChildren_nil (k : String) : lookupChildren [] k = [] := rfl

theorem lookupChildren_mapPush_same (m : List (String × DiagItem)) (k : String)
    (fresh i : DiagItem) (hfresh : fresh.children = []) :
    lookupChildren (mapPush m k fresh i) k = lookupChildren m k ++ [i] := by
  induction m with
  | nil =>
    simp [mapPush, lookupChildren, List.find?, pushChild_children, hfresh]
  | cons e rest ih =>
    obtain ⟨k0, g⟩ := e
    simp only [mapPush]
    by_cases hk : k0 = k
    · subst hk
      simp [lookupChildren, List.find?, pushChild_children]
    · rw [if_neg hk]
      simpa [lookupChildren, List.find?, hk] using ih

theorem lookupChildren_mapPush_ne (m : List (String × DiagItem)) (k k2 : String)
    (fresh i : DiagItem) (h : ¬ k2 = k) :
    lookupChildren (mapPush m k fresh i) k2 = lookupChildren m k2 := by
  induction m with
  | nil => simp [mapPush, lookupChildren, List.find?, Ne.symm h]
  | cons e rest ih =>
    obtain ⟨k0, g⟩ := e
    simp only [mapPush]
    by_cases hk : k0 = k
    · subst hk
      simp [lookupChildren, List.find?, Ne.symm h]
    · rw [if_neg hk]
      by_cases hk2 : k0 = k2
      · subst hk2
        simp [lookupChildren, List.find?]
      · simpa [lookupChildren, List.find?, hk2] using ih

theorem ruleGroup_children (i : DiagItem) : (ruleGroup i).children = [] := rfl

theorem fileGroup_children (p : String) : (fileGroup p).children = [] := rfl

theorem leafCount_ruleGroup (i : DiagItem) : leafCount [ruleGroup i] = 0 := by
  simp [ruleGroup, leafCount_singleton, leafCount]

theorem leafCount_fileGroup (p : String) : leafCount [fileGroup p] = 0 := by
  simp [fileGroup, leafCount_singleton, leafCount]

theorem leafSum_mapPush (m : List (String × DiagItem)) (k : String)
    (fresh i : DiagItem) (hfresh : leafCount [fresh] = 0) :
    leafCount ((mapPush m k fresh i).map Prod.snd) =
      leafCount (m.map Prod.snd) + leafCount [i] := by
  induction m with
  | nil =>
    simp only [mapPush, List.map_cons, List.map_nil]
    rw [leafCount_cons, leafCount_pushChild, hfresh]
    simp [leafCount]
  | cons e rest ih =>
    obtain ⟨k0, g⟩ := e
    simp only [mapPush]
    by_cases hk : k0 = k
    · subst hk
      rw [if_pos rfl]
      simp only [List.map_cons]
      rw [leafCount_cons (pushChild g i) (rest.map Prod.snd),
        leafCount_pushChild, leafCount_cons g (rest.map Prod.snd)]
      omega
    · rw [if_neg hk]
      simp only [List.map_cons]
      rw [leafCount_cons g ((mapPush rest k fresh i).map Prod.snd), ih,
        leafCount_cons g (rest.map Prod.snd)]
      omega

theorem buildRuleGroups_leafSum (items : List DiagItem)
    (hwf : ∀ i ∈ items, WFDiag i) :
    ∀ m : List (String × DiagItem),
      leafCount ((buildRuleGroups items m).map Prod.snd) =
        leafCount (m.map Prod.snd) + items.length := by
  induction items with
  | nil => intro m; simp [buildRuleGroups]
  | cons i rest ih =>
    intro m
    obtain ⟨hd, hch⟩ := hwf i (by simp)
    rw [buildRuleGroups, if_pos hd,
      ih (fun j hj => hwf j (by simp [hj])),
      leafSum_mapPush _ _ _ _ (leafCount_ruleGroup i),
      leafCount_wfLeaf hd hch]
    simp [Nat.add_comm, Nat.add_assoc]

theorem buildFileGroups_leafSum (items : List DiagItem)
    (hwf : ∀ i ∈ items, WFLeaf i) :
    ∀ m : List (String × DiagItem),
      leafCount ((buildFileGroups items m).map Prod.snd) =
        leafCount (m.map Prod.snd) + items.length := by
  induction items with
  | nil => intro m; simp [buildFileGroups]
  | cons i rest ih =>
    intro m
    obtain ⟨hd, hu, hch⟩ := hwf i (by simp)
    obtain ⟨p, hp⟩ := Option.isSome_iff_exists.mp hu
    rw [buildFileGroups, if_pos hd, hp]
    rw [ih (fun j hj => hwf j (by simp [hj])),
      leafSum_mapPush _ _ _ _ (leafCount_fileGroup p),
      leafCount_wfLeaf hd hch]
    simp [Nat.add_comm, Nat.add_assoc]

theorem buildRuleGroups_lookup (items : List DiagItem) :
    ∀ (m : List (String × DiagItem)) (k : String),
      lookupChildren (buildRuleGroups items m) k =
        lookupChildren m k ++
          items.filter (fun j =>
            decide (j.type = ItemType.diagnostic ∧ ruleKey j.source j.code = k)) := by
  induction items with
  | nil => intro m k; simp [buildRuleGroups]
  | cons i rest ih =>
    intro m k
    by_cases hd : i.type = ItemType.diagnostic
    · rw [buildRuleGroups, if_pos hd, ih]
      by_cases hk : ruleKey i.source i.code = k
      · subst hk
        rw [lookupChildren_mapPush_same _ _ _ _ (ruleGroup_children i)]
        rw [List.filter_cons, if_pos (by simp [hd])]
        simp
      · rw [lookupChildren_mapPush_ne _ _ _ _ _ (fun h => hk h.symm)]
        rw [List.filter_cons, if_neg (by simp [hk])]
    · rw [buildRuleGroups, if_neg hd, ih]
      rw [List.filter_cons, if_neg (by simp [hd])]

theorem buildFileGroups_lookup (items : List DiagItem) :
    ∀ (m : List (String × DiagItem)) (k : String),
      lookupChildren (buildFileGroups items m) k =
        lookupChildren m k ++
          items.filter (fun j =>
            decide (j.type = ItemType.diagnostic ∧ j.uriPath = some k)) := by
  induction items with
  | nil => intro m k; simp [buildFileGroups]
  | cons i rest ih =>
    intro m k
    by_cases hd : i.type = ItemType.diagnostic
    · cases hu : i.uriPath with
      | some p =>
        rw [buildFileGroups, if_pos hd, hu, ih]
        by_cases hk : p = k
        · subst hk
          rw [lookupChildren_mapPush_same _ _ _ _ (fileGroup_children p)]
          rw [List.filter_cons, if_pos (by simp [hd, hu])]
          simp
        · rw [lookupChildren_mapPush_ne _ _ _ _ _ (fun h => hk h.symm)]
          rw [List.filter_cons, if_neg (by simp [hd, hu, hk])]
      | none =>
        rw [buildFileGroups, if_pos hd, hu, ih]
        rw [List.filter_cons, if_neg (by simp [hu])]
    · rw [buildFileGroups, if_neg hd, ih]
      rw [List.filter_cons, if_neg (by simp [hd])]

theorem buildRuleGroups_keys_nodup (items : List DiagItem) :
    ∀ m : List (String × DiagItem), (m.map Prod.fst).Nodup →
      ((buildRuleGroups items m).map Prod.fst).Nodup := by
  induction items with
  | nil => intro m h; simpa [buildRuleGroups] using h
  | cons i rest ih =>
    intro m h
    by_cases hd : i.type = ItemType.diagnostic
    · rw [buildRuleGroups, if_pos hd]
      exact ih _ (mapPush_keys_nodup h)
    · rw [buildRuleGroups, if_neg hd]
      exact ih _ h

theorem buildFileGroups_keys_nodup (items : List DiagItem) :
    ∀ m : List (String × DiagItem), (m.map Prod.fst).Nodup →
      ((buildFileGroups items m).map Prod.fst).Nodup := by
  induction items with
  | nil => intro m h; simpa [buildFileGroups] using h
  | cons i rest ih =>
    intro m h
    by_cases hd : i.type = ItemType.diagnostic
    · cases hu : i.uriPath with
      | some p =>
        rw [buildFileGroups, if_pos hd, hu]
        exact ih _ (mapPush_keys_nodup h)
      | none =>
        rw [buildFileGroups, if_pos hd, hu]
        exact ih _ h
    · rw [buildFileGroups, if_neg hd]
      exact ih _ h

theorem lookupChildren_of_mem {m : List (String × DiagItem)}
    (h : (m.map Prod.fst).Nodup) {e : String × DiagItem} (he : e ∈ m) :
    lookupChildren m e.1 = e.2.children := by
  induction m with
  | nil => simp at he
  | cons e0 rest ih =>
    rcases List.mem_cons.mp he with rfl | he2
    · simp [lookupChildren, List.find?]
    · have hne : ¬ e0.1 = e.1 := by
        intro hcontra
        have : e.1 ∈ rest.map Prod.fst := List.mem_map_of_mem Prod.fst he2
        rw [List.map_cons, List.nodup_cons] at h
        exact h.1 (hcontra ▸ this)
      have hrest : (rest.map Prod.fst).Nodup := by
        rw [List.map_cons, List.nodup_cons] at h
        exact h.2
      simpa [lookupChildren, List.find?, hne] using ih hrest he2

theorem lookupChildren_ne_nil {m : List (String × DiagItem)} {k : String}
    (h : ¬ lookupChildren m k = []) : ∃ e ∈ m, e.1 = k := by
  unfold lookupChildren at h
  cases hf : m.find? (fun e => e.1 = k) with
  | none => rw [hf] at h; simp at h
  | some e =>
    refine ⟨e, List.mem_of_find?_eq_some hf, ?_⟩
    have := List.find?_some hf
    simpa using this

theorem ruleGroup_type (i : DiagItem) : (ruleGroup i).type = ItemType.errorType := rfl

theorem ruleGroup_label (i : DiagItem) :
    (ruleGroup i).label = ruleLabel i.source i.code := rfl

theorem ruleGroup_source (i : DiagItem) : (ruleGroup i).source = i.source := rfl

theorem ruleGroup_code (i : DiagItem) : (ruleGroup i).code = i.code := rfl

theorem groupKey_pushChild (g i : DiagItem) :
    groupKey (pushChild g i) = groupKey g := by
  simp [groupKey, pushChild_source, pushChild_code]

theorem groupKey_ruleGroup (i : DiagItem) :
    groupKey (ruleGroup i) = ruleKey i.source i.code := rfl

theorem buildRuleGroups_entry (items : List DiagItem) :
    ∀ m : List (String × DiagItem),
      (∀ e ∈ m, e.1 = groupKey e.2 ∧ e.2.type = ItemType.errorType ∧
        e.2.label = ruleLabel e.2.source e.2.code) →
      ∀ e ∈ buildRuleGroups items m,
        e.1 = groupKey e.2 ∧ e.2.type = ItemType.errorType ∧
          e.2.label = ruleLabel e.2.source e.2.code := by
  induction items with
  | nil => intro m hm e he; rw [buildRuleGroups] at he; exact hm e he
  | cons i rest ih =>
    intro m hm e he
    by_cases hd : i.type = ItemType.diagnostic
    · rw [buildRuleGroups, if_pos hd] at he
      refine ih _ ?_ e he
      intro e2 he2
      rcases mapPush_entry_cases e2 he2 with h | ⟨g, hg, rfl⟩ | rfl
      · exact hm e2 h
      · obtain ⟨h1, h2, h3⟩ := hm _ hg
        refine ⟨by rw [groupKey_pushChild]; exact h1, ?_, ?_⟩
        · rw [pushChild_type]; exact h2
        · rw [pushChild_label, pushChild_source, pushChild_code]; exact h3
      · refine ⟨?_, ?_, ?_⟩
        · rw [groupKey_pushChild, groupKey_ruleGroup]
        · rw [pushChild_type, ruleGroup_type]
        · rw [pushChild_label, pushChild_source, pushChild_code,
            ruleGroup_label, ruleGroup_source, ruleGroup_code]
    · rw [buildRuleGroups, if_neg hd] at he
      exact ih _ hm e he

theorem buildFileGroups_entry (items : List DiagItem)
    (hwf : ∀ i ∈ items, WFLeaf i) :
    ∀ m : List (String × DiagItem),
      (∀ e ∈ m, e.2.type = ItemType.file ∧ ∀ j ∈ e.2.children, WFDiag j) →
      ∀ e ∈ buildFileGroups items m,
        e.2.type = ItemType.file ∧ ∀ j ∈ e.2.children, WFDiag j := by
  induction items with
  | nil => intro m hm e he; rw [buildFileGroups] at he; exact hm e he
  | cons i rest ih =>
    intro m hm e he
    have hwfi := hwf i (by simp)
    have hwfrest : ∀ j ∈ rest, WFLeaf j := fun j hj => hwf j (by simp [hj])
    by_cases hd : i.type = ItemType.diagnostic
    · cases hu : i.uriPath with
      | some p =>
        rw [buildFileGroups, if_pos hd, hu] at he
        refine ih hwfrest _ ?_ e he
        intro e2 he2
        rcases mapPush_entry_cases e2 he2 with h | ⟨g, hg, rfl⟩ | rfl
        · exact hm e2 h
        · obtain ⟨h1, h2⟩ := hm _ hg
          refine ⟨by rw [pushChild_type]; exact h1, ?_⟩
          intro j hj
          rw [pushChild_children] at hj
          rcases List.mem_append.mp hj with hj | hj
          · exact h2 j hj
          · rcases List.mem_singleton.mp hj with rfl
            exact ⟨hwfi.1, hwfi.2.2⟩
        · refine ⟨by rw [pushChild_type]; rfl, ?_⟩
          intro j hj
          rw [pushChild_children, fileGroup_children] at hj
          rcases List.mem_singleton.mp (by simpa using hj) with rfl
          exact ⟨hwfi.1, hwfi.2.2⟩
      | none =>
        rw [buildFileGroups, if_pos hd, hu] at he
        exact ih hwfrest _ hm e he
    · rw [buildFileGroups, if_neg hd] at he
      exact ih hwfrest _ hm e he

theorem groupByFile_leafCount (items : List DiagItem)
    (hwf : ∀ i ∈ items, WFLeaf i) :
    leafCount (groupByFile items) = items.length := by
  unfold groupByFile
  rw [leafCount_perm (sortByLabel_perm _), buildFileGroups_leafSum items hwf []]
  simp [leafCount]

theorem groupByErrorType_leafCount (items : List DiagItem)
    (hwf : ∀ i ∈ items, WFDiag i) :
    leafCount (groupByErrorType items) = items.length := by
  unfold groupByErrorType
  rw [leafCount_perm (sortByLabel_perm _), buildRuleGroups_leafSum items hwf []]
  simp [leafCount]

theorem groupByFile_mem {items : List DiagItem} {g : DiagItem}
    (hg : g ∈ groupByFile items) :
    ∃ e ∈ buildFileGroups items [], e.2 = g := by
  have := (sortByLabel_perm _).mem_iff.mp hg
  obtain ⟨e, he, rfl⟩ := List.mem_map.mp this
  exact ⟨e, he, rfl⟩

theorem groupByBoth_leafCount (items : List DiagItem)
    (hwf : ∀ i ∈ items, WFLeaf i) :
    leafCount (groupByBoth items) = items.length := by
  have hmem : ∀ g ∈ groupByFile items,
      g.type = ItemType.file ∧ ∀ j ∈ g.children, WFDiag j := by
    intro g hg
    obtain ⟨e, he, rfl⟩ := groupByFile_mem hg
    exact buildFileGroups_entry items hwf [] (by simp) e he
  have hcong : ∀ g ∈ groupByFile items,
      leafCount [g.withChildren (groupByErrorType g.children)] = leafCount [g] := by
    intro g hg
    obtain ⟨ht, hch⟩ := hmem g hg
    cases g with
    | mk t l u sv src cd ch =>
      simp only [DiagItem.type] at ht
      simp only [DiagItem.children] at hch
      subst ht
      simp only [DiagItem.children]
      rw [show (DiagItem.mk ItemType.file l u sv src cd ch).withChildren
          (groupByErrorType ch) =
          DiagItem.mk ItemType.file l u sv src cd (groupByErrorType ch) from rfl,
        leafCount_singleton, leafCount_singleton,
        groupByErrorType_leafCount ch hch,
        leafCount_wf (fun j hj => (hch j hj))]
  unfold groupByBoth
  rw [leafCount_eq_sum, List.map_map]
  have hmapeq :
      List.map ((fun i => leafCount [i]) ∘
          fun g => g.withChildren (groupByErrorType g.children))
        (groupByFile items) =
      List.map (fun g => leafCount [g]) (groupByFile items) :=
    List.map_congr_left (fun g hg => hcong g hg)
  rw [hmapeq, ← leafCount_eq_sum, groupByFile_leafCount items hwf]

/-! ## Claim theorems -/

/-- C6: the exclude-pattern matcher with pattern `**/dist/**` matches the
relative path `packages/app/dist/index.js` and does not match
`packages/app/distinct/index.js`. -/
theorem exclude_pattern_dist_example :
    isExcluded "**/dist/**" "packages/app/dist/index.js" = true ∧
    isExcluded "**/dist/**" "packages/app/distinct/index.js" = false := by
  constructor
  · decide
  · decide

/-- C2 (counterexample): exclusion as the code computes it differs from
matching the spec's regular expression (`**` a sequence of path segments,
`*` within one segment, substituted in that order): for pattern `a/**/b`
and path `a/x/y/b` the spec regex matches but the code does not exclude,
because the second replacement rewrites the `*` of the `.*` that the first
replacement produced. -/
theorem glob_translation_cex :
    ¬ (isExcluded "a/**/b" "a/x/y/b" = specIsExcluded "a/**/b" "a/x/y/b") := by
  decide

/-- C2 (amended): for every plain glob pattern and path, the code excludes
the path iff it matches (unanchored) the regex whose atoms are the
*effective* translation: `**` ↦ `.[^/]*` (one arbitrary character then
characters within one segment), `*` ↦ `[^/]*`, `.` ↦ any character, other
characters literal — i.e. the two substitutions are applied in that order
to the raw pattern text with the second also rewriting the output of the
first, and no escaping is applied. -/
theorem glob_translation_effective (pattern path : String)
    (hp : plainGlob pattern.data) :
    isExcluded pattern path = regexTest (effectiveGlobAtoms pattern.data) path.data := by
  unfold isExcluded
  rw [parse_translate pattern.data hp]

/-- Witness for C2 (amended) at pattern `**/dist/**`. -/
theorem glob_translation_effective_witness :
    isExcluded "**/dist/**" "packages/app/dist/index.js" =
      regexTest (effectiveGlobAtoms "**/dist/**".data)
        "packages/app/dist/index.js".data :=
  glob_translation_effective "**/dist/**" "packages/app/dist/index.js"
    (by unfold plainGlob; decide)

/-- C4: the severity filter drops a record exactly when its severity is
Error with `showErrors = false` or Warning with `showWarnings = false`;
Info and Hint always pass; and on `[{Error},{Warning},{Info}]` with
`showErrors = true, showWarnings = false` the output is exactly
`[{Error},{Info}]` in order. -/
theorem severity_filter_correct :
    (∀ (showErrors showWarnings : Bool) (l : List DiagnosticRecord),
      filterBySeverity showErrors showWarnings l =
        l.filter (fun d =>
          !(decide ((d.severity = Severity.error ∧ showErrors = false) ∨
                    (d.severity = Severity.warning ∧ showWarnings = false))))) ∧
    (∀ (showErrors showWarnings : Bool) (l : List DiagnosticRecord)
        (d : DiagnosticRecord), d ∈ l →
      (d.severity = Severity.information ∨ d.severity = Severity.hint) →
      d ∈ filterBySeverity showErrors showWarnings l) ∧
    filterBySeverity true false
      [{ severity := Severity.error, message := "e" },
       { severity := Severity.warning, message := "w" },
       { severity := Severity.information, message := "i" }] =
      [{ severity := Severity.error, message := "e" },
       { severity := Severity.information, message := "i" }] := by
  refine ⟨filterBySeverity_eq_filter, ?_, by decide⟩
  intro showE showW l d hd hsev
  rw [filterBySeverity_eq_filter]
  refine List.mem_filter.mpr ⟨hd, ?_⟩
  rcases hsev with h | h <;> simp [h]

/-- Witness for C4 at a concrete Info record with both filters off. -/
theorem severity_filter_correct_witness :
    ({ severity := Severity.information, message := "i" } : DiagnosticRecord) ∈
      filterBySeverity false false
        [{ severity := Severity.information, message := "i" }] :=
  severity_filter_correct.2.1 false false _ _ (by simp) (Or.inl rfl)

/-- C10 (counterexample): on a diagnostic with a file and `start = 0` the
`tsChecker.ts` conversion returns a diagnostic while the `part_002`
conversion returns `undefined`, so the two implementations are not
extensionally equal. -/
theorem convert_diagnostic_equiv_cex :
    ¬ (convertDiagnostic
        { file := some { lineCharOfPos := fun n => { line := 0, character := n } },
          start := some 0, length := some 1,
          category := DiagnosticCategory.error, messageText := "x", code := 2304 } =
       convertDiagnosticAlt
        { file := some { lineCharOfPos := fun n => { line := 0, character := n } },
          start := some 0, length := some 1,
          category := DiagnosticCategory.error, messageText := "x", code := 2304 }) := by
  simp [convertDiagnostic, convertDiagnosticAlt]

/-- Witness for C10 (amended) at `start = 5`, `length = 3`. -/
theorem convertDiagnostic_agree_witness :
    convertDiagnostic
      { file := some { lineCharOfPos := fun n => { line := 0, character := n } },
        start := some 5, length := some 3,
        category := DiagnosticCategory.warning, messageText := "m", code := 1 } =
    convertDiagnosticAlt
      { file := some { lineCharOfPos := fun n => { line := 0, character := n } },
        start := some 5, length := some 3,
        category := DiagnosticCategory.warning, messageText := "m", code := 1 } :=
  convertDiagnostic_agree _ 5 3 rfl (by decide) rfl

/-- C1: a `requestRefresh()`/`requestRefreshImmediate()` arriving while a
scan runs (and the provider is not paused) only sets `pendingRefresh` —
it fires no event and starts no scan — and when the scan then completes,
exactly one follow-up is scheduled with a 100 ms delay, however many
requests arrived during the scan. -/
theorem single_flight_pending_refresh :
    (∀ s : ProviderState, s.isPaused = false → s.isRefreshing = true →
      s.refresh = { s with pendingRefresh := true } ∧
      s.refreshImmediate = { s with pendingRefresh := true, refreshTimeout := none }) ∧
    (∀ (s : ProviderState) (reqs : List RefreshRequest) (items : List DiagItem),
      s.isPaused = false → s.isRefreshing = true → ¬ reqs = [] →
      (applyRequests reqs s).fireCount = s.fireCount ∧
      (applyRequests reqs s).isRefreshing = true ∧
      (applyRequests reqs s).followUpTimers = s.followUpTimers ∧
      ((applyRequests reqs s).scanComplete items).pendingRefresh = false ∧
      ((applyRequests reqs s).scanComplete items).followUpTimers =
        s.followUpTimers ++ [100]) := by
  constructor
  · intro s hp hr
    exact ⟨refresh_during_scan s hp hr, refreshImmediate_during_scan s hp hr⟩
  · intro s reqs items hp hr hne
    obtain ⟨a1, a2, a3, a4, a5, a6, a7⟩ := applyRequests_during_scan reqs s hp hr
    have hpend : (applyRequests reqs s).pendingRefresh = true := by
      rw [a7]
      simp [List.isEmpty_iff, hne]
    obtain ⟨c1, c2, c3, c4, c5, c6, c7, c8⟩ :=
      scanComplete_proj (applyRequests reqs s) items
    refine ⟨a3, a2, a4, c3, ?_⟩
    rw [c8, if_pos hpend, a4]

/-- Witness for C1: three requests during a scan from the fresh state. -/
theorem single_flight_pending_refresh_witness :
    (({ initialState with isRefreshing := true } : ProviderState).refresh =
      { { initialState with isRefreshing := true } with pendingRefresh := true }) ∧
    ((applyRequests
        [RefreshRequest.debounced, RefreshRequest.immediate, RefreshRequest.debounced]
        { initialState with isRefreshing := true }).scanComplete []).followUpTimers =
      [100] := by
  constructor
  · exact (single_flight_pending_refresh.1 _ rfl rfl).1
  · have h := (single_flight_pending_refresh.2
      { initialState with isRefreshing := true }
      [RefreshRequest.debounced, RefreshRequest.immediate, RefreshRequest.debounced]
      [] rfl rfl (by decide)).2.2.2.2
    simpa [initialState] using h

/-- C8: while paused, both refresh entry points are exact no-ops on the
provider state (scan state and displayed list included), and toggling
pause off — with no scan left in flight — flips the flag and fires exactly
one immediate refresh. -/
theorem pause_semantics :
    (∀ s : ProviderState, s.isPaused = true →
      s.refresh = s ∧ s.refreshImmediate = s) ∧
    (∀ s : ProviderState, s.isPaused = true → s.isRefreshing = false →
      (s.togglePause).isPaused = false ∧
      (s.togglePause).fireCount = s.fireCount + 1) :=
  ⟨fun s h => ⟨refresh_paused s h, refreshImmediate_paused s h⟩,
   fun s h hr => togglePause_resume s h hr⟩

/-- Witness for C8 at a concrete paused state. -/
theorem pause_semantics_witness :
    ({ initialState with isPaused := true } : ProviderState).refresh =
      { initialState with isPaused := true } ∧
    (({ initialState with isPaused := true } : ProviderState).togglePause).fireCount = 1 := by
  refine ⟨(pause_semantics.1 _ rfl).1, ?_⟩
  have h := (pause_semantics.2 { initialState with isPaused := true } rfl rfl).2
  simpa [initialState] using h

/-- C9: after a scan completes (with a tree view attached), the flat list
is the flattening of the returned items, and the badge is exactly the
Error-leaf count when positive and cleared (`none`, not `some 0`) when the
count is zero — independent of Warning/Info/Hint counts. -/
theorem badge_error_count (s : ProviderState) (items : List DiagItem)
    (h : s.treeViewAttached = true) :
    (s.scanComplete items).flatDiagnosticsList = flattenDiagnostics items ∧
    (0 < ((flattenDiagnostics items).filter
        (fun i => i.severity = some Severity.error)).length →
      (s.scanComplete items).badge =
        some (((flattenDiagnostics items).filter
          (fun i => i.severity = some Severity.error)).length)) ∧
    (((flattenDiagnostics items).filter
        (fun i => i.severity = some Severity.error)).length = 0 →
      (s.scanComplete items).badge = none) := by
  obtain ⟨c1, c2, c3, c4, c5, c6, c7, c8⟩ := scanComplete_proj s items
  have hb := scanComplete_badge s items h
  refine ⟨c4, ?_, ?_⟩
  · intro hpos
    rw [hb, if_pos hpos]
  · intro hzero
    rw [hb, if_neg (by omega)]

/-- Witness for C9: one Error leaf gives badge value `1`. -/
theorem badge_error_count_witness :
    ((initialState.setTreeView).scanComplete
      [DiagItem.mk ItemType.diagnostic "d" none (some Severity.error) none none []]).badge =
      some 1 := by
  have hn : ((flattenDiagnostics
      [DiagItem.mk ItemType.diagnostic "d" none (some Severity.error) none none []]).filter
      (fun i => i.severity = some Severity.error)).length = 1 := by
    rw [flattenDiagnostics_wf
      (by intro i hi; rw [List.mem_singleton] at hi; subst hi; exact ⟨rfl, rfl⟩)]
    simp [DiagItem.severity]
  have h := (badge_error_count initialState.setTreeView
    [DiagItem.mk ItemType.diagnostic "d" none (some Severity.error) none none []]
    rfl).2.1 (by rw [hn]; exact Nat.one_pos)
  rw [hn] at h
  exact h

/-- C3 (counterexample): immediately after construction the provider has
`currentIndex = 0` with an empty flat list, so the index is neither `-1`
nor inside `[0, len(flatList))`. -/
theorem navigation_index_invariant_cex :
    ¬ (initialState.currentIndex = -1 ∨
       (0 ≤ initialState.currentIndex ∧
        initialState.currentIndex <
          (initialState.flatDiagnosticsList.length : Int))) := by
  decide

/-- C3 (amended): `currentIndex` starts at `0` (even with an empty list),
is never `-1` — every reachable state has a nonnegative index — and each
navigation call on a nonempty flat list leaves it inside `[0, len)`; a
rescan does not re-clamp it, so it is not always below the length. -/
theorem navigation_index_amended :
    initialState.currentIndex = 0 ∧
    (∀ s : ProviderState, Reachable s → 0 ≤ s.currentIndex) ∧
    (∀ s : ProviderState, 0 < s.flatDiagnosticsList.length →
      (0 ≤ (s.navigateToNext).currentIndex ∧
       (s.navigateToNext).currentIndex < (s.flatDiagnosticsList.length : Int)) ∧
      (0 ≤ (s.navigateToPrevious).currentIndex ∧
       (s.navigateToPrevious).currentIndex < (s.flatDiagnosticsList.length : Int))) := by
  refine ⟨rfl, reachable_currentIndex_nonneg, ?_⟩
  intro s h
  exact ⟨navigateToNext_bounds s h, navigateToPrevious_bounds s h⟩

/-- Witness for C3 (amended): the initial state and one navigation on a
singleton list. -/
theorem navigation_index_amended_witness :
    0 ≤ initialState.currentIndex ∧
    0 ≤ (({ initialState with flatDiagnosticsList :=
        [DiagItem.mk ItemType.diagnostic "d" none none none none []] }
          : ProviderState).navigateToNext).currentIndex := by
  constructor
  · exact navigation_index_amended.2.1 initialState Reachable.init
  · exact ((navigation_index_amended.2.2 _ (by simp)).1).1

/-- C5 (counterexample): the flat navigation list and the grouped tree can
disagree in leaf count: a diagnostic item without a uri is collected by
`flattenDiagnostics` but dropped by `groupByFile`, so under `file` grouping
the flat list has one entry and the tree no leaves. -/
theorem flat_grouped_count_cex :
    ¬ ((flattenDiagnostics
        [DiagItem.mk ItemType.diagnostic "[1:1] x" none (some Severity.error)
          none none []]).length =
      leafCount (groupDiagnostics
        [DiagItem.mk ItemType.diagnostic "[1:1] x" none (some Severity.error)
          none none []] GroupMode.file)) := by
  have h1 : flattenDiagnostics
      [DiagItem.mk ItemType.diagnostic "[1:1] x" none (some Severity.error)
        none none []] =
      [DiagItem.mk ItemType.diagnostic "[1:1] x" none (some Severity.error)
        none none []] :=
    flattenDiagnostics_wf
      (by intro i hi; rw [List.mem_singleton] at hi; subst hi; exact ⟨rfl, rfl⟩)
  rw [h1]
  simp [groupDiagnostics, groupByFile, buildFileGroups, sortByLabel, leafCount,
    DiagItem.type, DiagItem.uriPath]

/-- C5 (amended): for items as the diagnostics provider produces them
(diagnostic-typed, carrying a uri, childless), the flat navigation list
length equals the leaf count of the grouped tree in every grouping mode. -/
theorem flat_grouped_count_amended (items : List DiagItem) (mode : GroupMode)
    (hwf : ∀ i ∈ items, WFLeaf i) :
    (flattenDiagnostics items).length = leafCount (groupDiagnostics items mode) := by
  have hwfd : ∀ i ∈ items, i.type = ItemType.diagnostic ∧ i.children = [] :=
    fun i hi => ⟨(hwf i hi).1, (hwf i hi).2.2⟩
  rw [flattenDiagnostics_wf hwfd]
  cases mode with
  | file =>
    rw [show groupDiagnostics items GroupMode.file = groupByFile items from rfl]
    exact (groupByFile_leafCount items hwf).symm
  | errorType =>
    rw [show groupDiagnostics items GroupMode.errorType = groupByErrorType items
      from rfl]
    exact (groupByErrorType_leafCount items hwfd).symm
  | both =>
    rw [show groupDiagnostics items GroupMode.both = groupByBoth items from rfl]
    exact (groupByBoth_leafCount items hwf).symm
  | flat =>
    rw [show groupDiagnostics items GroupMode.flat = items from rfl]
    exact (leafCount_wf hwfd).symm

/-- Witness for C5 (amended) on a singleton provider item in `both` mode. -/
theorem flat_grouped_count_amended_witness :
    (flattenDiagnostics [DiagItem.mk ItemType.diagnostic "d" (some "a.ts")
        (some Severity.error) none none []]).length =
      leafCount (groupDiagnostics [DiagItem.mk ItemType.diagnostic "d" (some "a.ts")
        (some Severity.error) none none []] GroupMode.both) :=
  flat_grouped_count_amended _ GroupMode.both
    (by intro i hi; rw [List.mem_singleton] at hi; subst hi; exact ⟨rfl, rfl, rfl⟩)

/-- C7 (counterexample): two diagnostics with the distinct `(source, code)`
pairs `("a:b", "c")` and `("a", "b:c")` share the joined key `a:b:c`, so
`byRule` grouping produces one group, not one per distinct pair. -/
theorem rule_group_pair_collision_cex :
    (groupByErrorType
      [DiagItem.mk ItemType.diagnostic "x" none none (some "a:b") (some "c") [],
       DiagItem.mk ItemType.diagnostic "y" none none (some "a") (some "b:c") []]).length
      = 1 ∧
    ¬ ((some "a:b" : Option String) = some "a" ∧
       (some "c" : Option String) = some "b:c") := by
  constructor
  · decide
  · decide

/-- C7 (amended): `byRule` grouping produces exactly one group per distinct
joined key string `${source || 'unknown'}:${code || 'unknown'}` (falsy —
missing or empty — source/code normalize to `unknown`, and distinct pairs
may collide after joining); each group is `errorType`-typed, labelled
`${source}: ${code}` when `code` is truthy and otherwise the truthy source
or `Unknown`; its children are exactly the diagnostic items with that key
in input order; and the groups are pairwise sorted by label. -/
theorem rule_grouping_characterization (items : List DiagItem) :
    ((groupByErrorType items).map groupKey).Nodup ∧
    (∀ g ∈ groupByErrorType items,
      g.type = ItemType.errorType ∧
      g.label = ruleLabel g.source g.code ∧
      g.children = items.filter (fun j =>
        decide (j.type = ItemType.diagnostic ∧
          ruleKey j.source j.code = groupKey g))) ∧
    (∀ j ∈ items, j.type = ItemType.diagnostic →
      ∃ g ∈ groupByErrorType items, groupKey g = ruleKey j.source j.code) ∧
    (groupByErrorType items).Pairwise (fun a b => a.label ≤ b.label) := by
  have hent := buildRuleGroups_entry items [] (by simp)
  have hkeys := buildRuleGroups_keys_nodup items [] (by simp)
  have hperm : (groupByErrorType items).Perm
      ((buildRuleGroups items []).map Prod.snd) := sortByLabel_perm _
  have hmapkeys : ((buildRuleGroups items []).map Prod.snd).map groupKey =
      (buildRuleGroups items []).map Prod.fst := by
    rw [List.map_map]
    exact List.map_congr_left (fun e he => ((hent e he).1).symm)
  refine ⟨?_, ?_, ?_, ?_⟩
  · have hp2 : ((groupByErrorType items).map groupKey).Perm
        ((buildRuleGroups items []).map Prod.fst) := by
      rw [← hmapkeys]
      exact hperm.map groupKey
    exact hp2.nodup_iff.mpr hkeys
  · intro g hg
    obtain ⟨e, he, rfl⟩ := List.mem_map.mp (hperm.mem_iff.mp hg)
    obtain ⟨h1, h2, h3⟩ := hent e he
    refine ⟨h2, h3, ?_⟩
    have hlook := lookupChildren_of_mem hkeys he
    have hchar := buildRuleGroups_lookup items [] e.1
    rw [lookupChildren_nil, List.nil_append, hlook] at hchar
    calc e.2.children
        = items.filter (fun j =>
            decide (j.type = ItemType.diagnostic ∧
              ruleKey j.source j.code = e.1)) := hchar
      _ = items.filter (fun j =>
            decide (j.type = ItemType.diagnostic ∧
              ruleKey j.source j.code = groupKey e.2)) := by rw [h1]
  · intro j hj hdj
    have hchar := buildRuleGroups_lookup items [] (ruleKey j.source j.code)
    rw [lookupChildren_nil, List.nil_append] at hchar
    have hjin : j ∈ items.filter (fun j2 =>
        decide (j2.type = ItemType.diagnostic ∧
          ruleKey j2.source j2.code = ruleKey j.source j.code)) :=
      List.mem_filter.mpr ⟨hj, by simp [hdj]⟩
    have hne : ¬ lookupChildren (buildRuleGroups items [])
        (ruleKey j.source j.code) = [] := by
      rw [hchar]
      intro hcontra
      rw [hcontra] at hjin
      simp at hjin
    obtain ⟨e, he, hek⟩ := lookupChildren_ne_nil hne
    refine ⟨e.2, hperm.mem_iff.mpr (List.mem_map_of_mem Prod.snd he), ?_⟩
    rw [← (hent e he).1, hek]
  · exact sortByLabel_pairwise _

/-- Witness for C7 (amended): the key of a concrete eslint rule group. -/
theorem rule_grouping_characterization_witness :
    ∃ g ∈ groupByErrorType
        [DiagItem.mk ItemType.diagnostic "x" none none (some "eslint")
          (some "semi") []],
      groupKey g = ruleKey (some "eslint") (some "semi") := by
  have h := (rule_grouping_characterization
    [DiagItem.mk ItemType.diagnostic "x" none none (some "eslint") (some "semi") []]).2.2.1
    (DiagItem.mk ItemType.diagnostic "x" none none (some "eslint") (some "semi") [])
    (by simp) rfl
  simpa [DiagItem.source, DiagItem.code] using h

end LintMon
